import Mathlib

/-!
# Verification of the gtdBot session/scheduling engine

A shallow embedding, in Lean 4, of the core of the gtdBot repository:
the SQLite-backed item store (`Store`), the in-memory per-chat session
registry (`getState` / `touchState` / `setTopic` / `resetToMenu`), the
message-dispatch path (`handleMessage` / `handleCallback`), and the daily
trigger scheduler (`Scheduler.loop`, embedded as a pure `Scheduler.tick`
over an explicit last-fired map).

Modelling conventions:
* Wall-clock instants are integers (`Int`, one unit = one nanosecond like
  Go's `time.Duration`; only differences are ever compared, so the unit is
  irrelevant).  The scheduler sees time as a pair of formatted strings
  (`hhmm`, `date`), exactly the two projections the Go loop computes.
* Go maps are association lists with in-place update (`upsert`), so that
  writing an existing key with the same value is the identity on the data.
* The SQLite `items` table is a list of rows in insertion order together
  with the `AUTOINCREMENT` counter.  Since `AUTOINCREMENT` hands out
  strictly increasing ids, `ORDER BY id ASC` coincides with insertion
  order for stores satisfying `Store.Inv`; `ListActive` is therefore a
  filter over the row list.
* Store operations are total (the pure model cannot produce an I/O error);
  the Go code's error branches are noted where relevant.
* `int64` wraparound is not modelled: no claim under study exercises
  arithmetic anywhere near 2^63.
-/

set_option autoImplicit false

/-! ## Association lists with Go-map update semantics -/

def alookup {κ α : Type} [DecidableEq κ] (k : κ) : List (κ × α) → Option α
  | [] => none
  | (k', v) :: r => if k' = k then some v else alookup k r

def upsert {κ α : Type} [DecidableEq κ] (k : κ) (v : α) : List (κ × α) → List (κ × α)
  | [] => [(k, v)]
  | (k', v') :: r => if k' = k then (k, v) :: r else (k', v') :: upsert k v r

theorem alookup_upsert_self {κ α : Type} [DecidableEq κ] (k : κ) (v : α)
    (m : List (κ × α)) : alookup k (upsert k v m) = some v := by
  induction m with
  | nil => simp [alookup, upsert]
  | cons p r ih =>
    obtain ⟨k', v'⟩ := p
    by_cases h : k' = k <;> simp [alookup, upsert, h, ih]

theorem alookup_upsert_ne {κ α : Type} [DecidableEq κ] {k k' : κ} (v : α)
    (m : List (κ × α)) (h : k' ≠ k) :
    alookup k (upsert k' v m) = alookup k m := by
  induction m with
  | nil => simp [alookup, upsert, h]
  | cons p r ih =>
    obtain ⟨k₀, v₀⟩ := p
    by_cases h₀ : k₀ = k' <;> by_cases h₁ : k₀ = k <;>
      simp_all [alookup, upsert]

theorem upsert_upsert_same {κ α : Type} [DecidableEq κ] (k : κ) (v : α)
    (m : List (κ × α)) : upsert k v (upsert k v m) = upsert k v m := by
  induction m with
  | nil => simp [upsert]
  | cons p r ih =>
    obtain ⟨k', v'⟩ := p
    by_cases h : k' = k <;> simp [upsert, h, ih]

theorem upsert_of_alookup_eq {κ α : Type} [DecidableEq κ] {k : κ} {v : α}
    {m : List (κ × α)} (h : alookup k m = some v) : upsert k v m = m := by
  induction m with
  | nil => simp [alookup] at h
  | cons p r ih =>
    obtain ⟨k', v'⟩ := p
    by_cases hk : k' = k
    · subst hk
      simp [alookup] at h
      simp [upsert, h]
    · simp [alookup, hk] at h
      simp [upsert, hk, ih h]

theorem alookup_mem {κ α : Type} [DecidableEq κ] {k : κ} {v : α}
    {m : List (κ × α)} (h : alookup k m = some v) : (k, v) ∈ m := by
  induction m with
  | nil => simp [alookup] at h
  | cons p r ih =>
    obtain ⟨k', v'⟩ := p
    by_cases hk : k' = k
    · subst hk
      simp [alookup] at h
      simp [h]
    · simp [alookup, hk] at h
      exact List.mem_cons_of_mem _ (ih h)

theorem mem_upsert {κ α : Type} [DecidableEq κ] {k : κ} {v : α}
    {m : List (κ × α)} {p : κ × α} (h : p ∈ upsert k v m) :
    p = (k, v) ∨ p ∈ m := by
  induction m with
  | nil => simpa [upsert] using h
  | cons q r ih =>
    obtain ⟨k', v'⟩ := q
    by_cases hk : k' = k
    · simp [upsert, hk] at h
      rcases h with h | h
      · exact Or.inl (by simp [h])
      · exact Or.inr (List.mem_cons_of_mem _ h)
    · simp only [upsert, if_neg hk, List.mem_cons] at h
      rcases h with h | h
      · exact Or.inr (by simp [h])
      · rcases ih h with h' | h'
        · exact Or.inl h'
        · exact Or.inr (List.mem_cons_of_mem _ h')

/-! ## Go string helpers

`strings.ToLower` / `strings.ToUpper` restricted to ASCII Latin and the
basic Cyrillic block (U+0410–U+044F plus Ё/ё) — the only characters the
bot's topic-button recognizer and labels ever feed to them. -/

def goLowerChar (c : Char) : Char :=
  if 'A' ≤ c ∧ c ≤ 'Z' then Char.ofNat (c.toNat + 32)
  else if 'А' ≤ c ∧ c ≤ 'Я' then Char.ofNat (c.toNat + 32)
  else if c = 'Ё' then 'ё'
  else c

def goUpperChar (c : Char) : Char :=
  if 'a' ≤ c ∧ c ≤ 'z' then Char.ofNat (c.toNat - 32)
  else if 'а' ≤ c ∧ c ≤ 'я' then Char.ofNat (c.toNat - 32)
  else if c = 'ё' then 'Ё'
  else c

def goToLower (s : String) : String := ⟨s.data.map goLowerChar⟩

def goToUpper (s : String) : String := ⟨s.data.map goUpperChar⟩

/-- `strings.TrimSpace` (ASCII whitespace; the bot only ever feeds it
ASCII/Cyrillic text, never exotic Unicode spaces). Structural so that the
kernel can evaluate it. -/
def goTrim (s : String) : String :=
  ⟨((s.data.dropWhile Char.isWhitespace).reverse.dropWhile Char.isWhitespace).reverse⟩

/-! ## Topic constants (source: const block of main.go) -/

def TopicTasks : String := "tasks"

def TopicReminders : String := "reminders"

def TopicShopping : String := "shopping"

def TopicBasket : String := "basket"

def StatusActive : String := "active"

/-! ## Item store (source: `Store` in main.go)

A row of the `items` table, plus the `kv` table and the `AUTOINCREMENT`
counter for `id`. -/

structure Item where
  id : Int
  chatID : Int
  topic : String
  text : String
  createdAt : String
  status : String
deriving Repr, DecidableEq

structure Store where
  items : List Item
  kv : List (String × String)
  nextId : Int
deriving Repr, DecidableEq

/-- `Store.SetKV`: upsert into the `kv` table. -/
def Store.SetKV (s : Store) (key value : String) : Store :=
  { s with kv := upsert key value s.kv }

/-- `Store.GetKV`: point lookup in the `kv` table. -/
def Store.GetKV (s : Store) (key : String) : Option String :=
  alookup key s.kv

/-- `Store.AddItem`: INSERT a new row with status `active`; returns the
`AUTOINCREMENT` id.  `createdAt` is the RFC3339-formatted insertion time,
passed in by the caller (the Go code formats `time.Now()` itself). -/
def Store.AddItem (s : Store) (chatID : Int) (topic text createdAt : String) :
    Int × Store :=
  (s.nextId,
   { s with
       items := s.items ++ [⟨s.nextId, chatID, topic, text, createdAt, StatusActive⟩],
       nextId := s.nextId + 1 })

/-- `Store.ListActive`: rows of the chat with status `active`, restricted
to `topic` when `topic ≠ ""`, in `ORDER BY id ASC` — which equals row
order for stores satisfying `Store.Inv`. -/
def Store.ListActive (s : Store) (chatID : Int) (topic : String) : List Item :=
  s.items.filter fun it =>
    decide (it.chatID = chatID ∧ it.status = StatusActive ∧
            (topic = "" ∨ it.topic = topic))

/-- `Store.DeleteItem`: `DELETE FROM items WHERE chat_id=? AND id=?`. -/
def Store.DeleteItem (s : Store) (chatID id : Int) : Store :=
  { s with items := s.items.filter fun it => decide ¬(it.chatID = chatID ∧ it.id = id) }

/-- `Store.DeleteAllReminders`: `DELETE FROM items WHERE chat_id=? AND topic='reminders'`. -/
def Store.DeleteAllReminders (s : Store) (chatID : Int) : Store :=
  { s with items := s.items.filter fun it => decide ¬(it.chatID = chatID ∧ it.topic = TopicReminders) }

/-- Store invariant maintained by `AUTOINCREMENT`: row ids strictly
increase in row order and stay below the counter. -/
def Store.Inv (s : Store) : Prop :=
  s.items.Pairwise (fun a b => a.id < b.id) ∧ ∀ it ∈ s.items, it.id < s.nextId

/-! ## Outbound messages

A scheduler- or dispatch-originated Telegram message: target chat, text,
and (for per-reminder messages) the single inline button's callback data. -/

structure Msg where
  chatID : Int
  text : String
  button : Option String
deriving Repr, DecidableEq

def mkMsg (chatID : Int) (text : String) : Msg := ⟨chatID, text, none⟩

/-! ## Session registry (source: `App` methods in main.go) -/

structure ChatState where
  topic : String
  lastActivity : Int
deriving Repr, DecidableEq

/-- The in-memory `ChatStates` map. -/
abbrev SessMap : Type := List (Int × ChatState)

/-- `App.getState`: return the existing session unchanged, or create a
fresh one with topic `basket` and `lastActivity = now`.  No TTL logic. -/
def getState (sess : SessMap) (chatID : Int) (now : Int) : ChatState × SessMap :=
  match alookup chatID sess with
  | some st => (st, sess)
  | none =>
    let st : ChatState := ⟨TopicBasket, now⟩
    (st, upsert chatID st sess)

/-- `App.touchState`: like `getState`, but for an existing session resets
the topic to `basket` when `now - lastActivity > TTL` (strict), and always
refreshes `lastActivity` to `now`. -/
def touchState (ttl : Int) (sess : SessMap) (chatID : Int) (now : Int) :
    ChatState × SessMap :=
  match alookup chatID sess with
  | none =>
    let st : ChatState := ⟨TopicBasket, now⟩
    (st, upsert chatID st sess)
  | some st =>
    let st₁ := if now - st.lastActivity > ttl then { st with topic := TopicBasket } else st
    let st₂ := { st₁ with lastActivity := now }
    (st₂, upsert chatID st₂ sess)

/-- `App.setTopic`: unconditionally set topic and refresh `lastActivity`
(the Go code creates a zero state first when absent; the net effect is the
same single write). -/
def setTopic (sess : SessMap) (chatID : Int) (topic : String) (now : Int) : SessMap :=
  upsert chatID ⟨topic, now⟩ sess

/-- `App.resetToMenu`: set topic to `basket` and refresh `lastActivity`. -/
def resetToMenu (sess : SessMap) (chatID : Int) (now : Int) : SessMap :=
  upsert chatID ⟨TopicBasket, now⟩ sess

/-! ## Topic-button recognition and formatting (source: main.go) -/

/-- `isTopicButtonText`: map a button label (lowercased, trimmed) to the
topic it selects. -/
def isTopicButtonText (t : String) : Option String :=
  let s := goTrim (goToLower t)
  if s = "задачи" then some TopicTasks
  else if s = "напоминания" then some TopicReminders
  else if s = "покупки" then some TopicShopping
  else if s = "корзина" then some TopicBasket
  else if s = "menu" then some TopicBasket
  else none

/-- `topicLabel`: Russian display label of a topic. -/
def topicLabel (topic : String) : String :=
  if topic = TopicTasks then "ЗАДАЧИ"
  else if topic = TopicReminders then "НАПОМИНАНИЯ"
  else if topic = TopicShopping then "ПОКУПКИ"
  else if topic = TopicBasket then "КОРЗИНУ"
  else goToUpper topic

/-- `formatSingleReminder`. -/
def formatSingleReminder (it : Item) : String :=
  "НАПОМИНАНИЕ #" ++ toString it.id ++ ": " ++ it.text

/-- `singleReminderKeyboard`: the one-button inline keyboard, modelled as
the button's callback data. -/
def singleReminderKeyboard (id : Int) : String := "done:" ++ toString id

/-- `formatItems`: numbered aggregate list for non-reminder topics. -/
def formatItems (topic : String) (items : List Item) : String :=
  if items = [] then topicLabel topic ++ ": пусто."
  else
    goTrim (topicLabel topic ++ ":\n" ++
      String.join (items.enum.map fun p => toString (p.1 + 1) ++ ") " ++ p.2.text ++ "\n"))

/-- `App.sendRemindersOneByOne`: "Пусто." when empty, else one message per
item carrying its ✅ button. -/
def sendRemindersOneByOne (chatID : Int) (items : List Item) : List Msg :=
  if items = [] then [mkMsg chatID "Пусто."]
  else items.map fun it => ⟨chatID, formatSingleReminder it, some (singleReminderKeyboard it.id)⟩

/-! ## Environment / target-chat resolution (source: scheduler.go, main.go) -/

/-- The environment variables the core reads at dispatch/scheduler time. -/
structure Env where
  chatID : String
deriving Repr, DecidableEq

/-- `parseInt64` (hand-rolled in scheduler.go): empty string fails;
otherwise an optional leading `-` followed by digits only.  (Quirk kept
from the source: a lone `-` parses as 0.) -/
def parseInt64 (s : String) : Option Int :=
  if s.data = [] then none
  else
    let neg : Bool := s.data.head? = some '-'
    let t := if neg then s.data.drop 1 else s.data
    if t.all (fun c => decide ('0' ≤ c ∧ c ≤ '9')) then
      let n : Int := t.foldl (fun n c => n * 10 + ((c.toNat : Int) - ('0'.toNat : Int))) 0
      some (if neg then -n else n)
    else none

/-- `strconv.ParseInt` as used on callback data: optional sign followed by
at least one digit. -/
def parseIntGo (s : String) : Option Int :=
  let neg : Bool := s.data.head? = some '-'
  let t := if s.data.head? = some '-' ∨ s.data.head? = some '+' then s.data.drop 1 else s.data
  if t ≠ [] ∧ t.all (fun c => decide ('0' ≤ c ∧ c ≤ '9')) then
    let n : Int := t.foldl (fun n c => n * 10 + ((c.toNat : Int) - ('0'.toNat : Int))) 0
    some (if neg then -n else n)
  else none

/-- `Scheduler.targetChatID`: env `CHAT_ID` first, else the persisted
`kv` entry `chat_id`. -/
def targetChatID (env : Env) (s : Store) : Option Int :=
  match parseInt64 (goTrim env.chatID) with
  | some c => some c
  | none =>
    match s.GetKV "chat_id" with
    | some v => parseInt64 (goTrim v)
    | none => none

/-- `App.ensureChatID`: when env `CHAT_ID` is unset, persist the sender's
chat id into `kv` so the scheduler can address it. -/
def ensureChatID (env : Env) (chatID : Int) (s : Store) : Store :=
  if goTrim env.chatID ≠ "" then s else s.SetKV "chat_id" (toString chatID)

/-! ## Scheduler trigger actions (source: scheduler.go)

The calendar collaborator's reply at the current instant is modelled as an
`Except` value (`error e` = the `GetTodaySchedule` call failed). -/

/-- `Scheduler.sendMorningDigest`: no-op without a target chat; on a
calendar error, substitute the visible error string. -/
def Scheduler.sendMorningDigest (env : Env) (cal : Except String String)
    (s : Store) : List Msg :=
  match targetChatID env s with
  | none => []
  | some chat =>
    let text :=
      match cal with
      | .ok t => t
      | .error e => "Ошибка чтения календаря: " ++ e
    [mkMsg chat ("РАСПИСАНИЕ НА СЕГОДНЯ:\n" ++ text)]

/-- `Scheduler.sendReminders`: no-op without a target chat; otherwise one
message per active reminder item, each with its `done:<id>` button. -/
def Scheduler.sendReminders (env : Env) (s : Store) : List Msg :=
  match targetChatID env s with
  | none => []
  | some chat =>
    let items := s.ListActive chat TopicReminders
    if items = [] then []
    else items.map fun it => ⟨chat, formatSingleReminder it, some (singleReminderKeyboard it.id)⟩

/-- `Scheduler.wipeReminders`: no-op without a target chat; otherwise
delete the chat's reminder rows and confirm. -/
def Scheduler.wipeReminders (env : Env) (s : Store) : Store × List Msg :=
  match targetChatID env s with
  | none => (s, [])
  | some chat =>
    (s.DeleteAllReminders chat, [mkMsg chat "НАПОМИНАНИЯ ОЧИЩЕНЫ (ночной вайп)."])

/-! ## Dispatch path (source: `App.handleMessage` / `App.handleCallback`) -/

/-- Telegram marks a message as a command when it starts with `/`. -/
def isCommandText (t : String) : Bool := t.data.head? = some '/'

/-- `m.Command()`: the word after the slash, minus any `@bot` suffix. -/
def commandOf (t : String) : String :=
  ⟨(t.data.drop 1).takeWhile fun c => decide (c ≠ ' ' ∧ c ≠ '@')⟩

structure HRes where
  sessions : SessMap
  store : Store
  msgs : List Msg
deriving DecidableEq

/-- `App.handleMessage` (session/store/outbound effects of one inbound
text message; pure store, so the Go error branches cannot trigger). -/
def handleMessage (env : Env) (ttl : Int) (sess : SessMap) (store : Store)
    (chatID : Int) (text : String) (now : Int) (nowStr : String) : HRes :=
  if isCommandText text then
    if commandOf text = "start" ∨ commandOf text = "menu" then
      ⟨resetToMenu sess chatID now, ensureChatID env chatID store,
       [mkMsg chatID "Меню открыто. Режим по умолчанию: КОРЗИНА."]⟩
    else if commandOf text = "list" then
      if (getState sess chatID now).1.topic = TopicReminders then
        ⟨(getState sess chatID now).2, ensureChatID env chatID store,
         mkMsg chatID "НАПОМИНАНИЯ:" ::
           sendRemindersOneByOne chatID
             ((ensureChatID env chatID store).ListActive chatID (getState sess chatID now).1.topic)⟩
      else
        ⟨(getState sess chatID now).2, ensureChatID env chatID store,
         [mkMsg chatID (formatItems (getState sess chatID now).1.topic
            ((ensureChatID env chatID store).ListActive chatID (getState sess chatID now).1.topic))]⟩
    else
      ⟨sess, ensureChatID env chatID store,
       [mkMsg chatID "Неизвестная команда. Используй /start или /menu."]⟩
  else if text = "" then
    ⟨sess, ensureChatID env chatID store, [mkMsg chatID "Понимаю только текстовые сообщения."]⟩
  else
    match isTopicButtonText text with
    | some topic =>
      if goToLower (goTrim text) = "menu" then
        ⟨resetToMenu sess chatID now, ensureChatID env chatID store,
         [mkMsg chatID "Меню открыто. Режим: КОРЗИНА.",
          mkMsg chatID (formatItems TopicBasket
            ((ensureChatID env chatID store).ListActive chatID TopicBasket))]⟩
      else
        if topic = TopicReminders then
          ⟨setTopic sess chatID topic now, ensureChatID env chatID store,
           mkMsg chatID ("Режим: " ++ topicLabel topic ++ ".") ::
             sendRemindersOneByOne chatID
               ((ensureChatID env chatID store).ListActive chatID topic)⟩
        else
          ⟨setTopic sess chatID topic now, ensureChatID env chatID store,
           [mkMsg chatID ("Режим: " ++ topicLabel topic ++ "."),
            mkMsg chatID (formatItems topic
              ((ensureChatID env chatID store).ListActive chatID topic))]⟩
    | none =>
      if goTrim text = "" then
        ⟨(touchState ttl sess chatID now).2, ensureChatID env chatID store, []⟩
      else
        ⟨(touchState ttl sess chatID now).2,
         ((ensureChatID env chatID store).AddItem chatID
            (touchState ttl sess chatID now).1.topic (goTrim text) nowStr).2,
         [mkMsg chatID ("ДОБАВИЛ СООБЩЕНИЕ В " ++
            topicLabel (touchState ttl sess chatID now).1.topic ++ ".")]⟩

/-- `App.handleCallback` (store effect): on `done:<id>` data that parses,
delete that row of the chat; anything else leaves the items untouched.
Errors from the delete are discarded by the source (`_ =`). -/
def handleCallback (env : Env) (s : Store) (chatID : Int) (data : String) : Store :=
  let s := ensureChatID env chatID s
  let d := goTrim data
  if d.data.take 5 = "done:".data then
    match parseIntGo ⟨d.data.drop 5⟩ with
    | some id => s.DeleteItem chatID id
    | none => s
  else s

/-! ## Daily trigger scheduler (source: `Scheduler.loop` in scheduler.go)

The loop body between two ticker wakeups, as a pure step over the
`lastFired` map: for each configured trigger whose time-of-day matches and
whose recorded date differs from today, record today *first* and then run
the action.  One `SimTime` is the pair of strings the Go loop derives from
`time.Now()`. -/

structure SimTime where
  hhmm : String
  date : String
deriving Repr, DecidableEq

inductive TrigKind where
  | morning
  | reminders
  | wipe
deriving Repr, DecidableEq

structure Trigger where
  kind : TrigKind
  key : String
  time : String
deriving Repr, DecidableEq

structure Scheduler where
  reminderTimes : List String
  wipeTime : String
  morningTime : String
deriving Repr, DecidableEq

/-- `NewScheduler` with the source's fixed times; `morningTime` defaults
to 08:00 (`MORNING_TIME` env override). -/
def gtdScheduler : Scheduler :=
  ⟨["08:00", "10:00", "14:00", "19:00", "23:00"], "03:00", "08:00"⟩

/-- The trigger checks of one loop iteration, in source order: morning
digest, the reminder times, night wipe.  The `lastFired` key strings are
exactly the Go map keys. -/
def triggers (cfg : Scheduler) : List Trigger :=
  ⟨.morning, "morning:" ++ cfg.morningTime, cfg.morningTime⟩ ::
    (cfg.reminderTimes.map fun t => ⟨.reminders, "reminders:" ++ t, t⟩) ++
    [⟨.wipe, "wipe:" ++ cfg.wipeTime, cfg.wipeTime⟩]

/-- Scheduler loop state: the `lastFired` map plus the world it acts on
(store, messages sent so far) and the log of invoked trigger keys. -/
structure TickState where
  lastFired : List (String × String)
  store : Store
  msgs : List Msg
  fired : List String
deriving DecidableEq

def initTick (s : Store) : TickState := ⟨[], s, [], []⟩

/-- Dispatch of a fired trigger to its action. -/
def actionOf (k : TrigKind) (env : Env) (cal : Except String String)
    (s : Store) : Store × List Msg :=
  match k with
  | .morning => (s, Scheduler.sendMorningDigest env cal s)
  | .reminders => (s, Scheduler.sendReminders env s)
  | .wipe => Scheduler.wipeReminders env s

/-- One trigger check: Go's
`if hhmm == t && lastFired[key] != today { lastFired[key] = today; action() }`.
(A missing map key reads as `""` in Go, never equal to a date string, so
the guard is `alookup key ≠ some today`.) -/
def tickStep (env : Env) (cal : Except String String) (now : SimTime)
    (st : TickState) (tr : Trigger) : TickState :=
  if now.hhmm = tr.time ∧ alookup tr.key st.lastFired ≠ some now.date then
    ⟨upsert tr.key now.date st.lastFired, (actionOf tr.kind env cal st.store).1,
     st.msgs ++ (actionOf tr.kind env cal st.store).2, st.fired ++ [tr.key]⟩
  else st

/-- `Scheduler.tick`: one full loop iteration over all triggers. -/
def Scheduler.tick (cfg : Scheduler) (env : Env) (cal : Except String String)
    (now : SimTime) (st : TickState) : TickState :=
  (triggers cfg).foldl (tickStep env cal now) st

/-- A sequence of loop iterations at the given instants. -/
def Scheduler.runTicks (cfg : Scheduler) (env : Env) (cal : Except String String)
    (st : TickState) (ts : List SimTime) : TickState :=
  ts.foldl (fun a t => Scheduler.tick cfg env cal t a) st

/-- A trigger with key `k` is due at time-of-day `h` under `cfg`. -/
def dueAt (cfg : Scheduler) (k h : String) : Bool :=
  (triggers cfg).any fun tr => tr.key == k && tr.time == h

/-! ## Session registry lemmas -/

theorem touchState_snd (ttl : Int) (sess : SessMap) (chatID now : Int) :
    (touchState ttl sess chatID now).2
      = upsert chatID (touchState ttl sess chatID now).1 sess := by
  unfold touchState
  cases alookup chatID sess <;> simp

theorem touchState_lastActivity (ttl : Int) (sess : SessMap) (chatID now : Int) :
    (touchState ttl sess chatID now).1.lastActivity = now := by
  unfold touchState
  cases alookup chatID sess <;> simp

theorem touchState_topic_of_mem (ttl : Int) (sess : SessMap) (chatID now : Int)
    (st : ChatState) (h : alookup chatID sess = some st) :
    (touchState ttl sess chatID now).1.topic
      = (if now - st.lastActivity > ttl then TopicBasket else st.topic) := by
  unfold touchState
  rw [h]
  by_cases hc : now - st.lastActivity > ttl <;> simp [hc]

/-- C3 (amended): between two consecutive `touch` calls, the second one
resets the topic to the inbox exactly when the elapsed time is *strictly*
greater than TTL; at or below TTL it keeps the topic of the first touch;
and every touch sets `lastActivity` to its own instant. -/
theorem touchState_ttl_semantics (ttl : Int) (sess : SessMap) (chatID t₁ t₂ : Int) :
    (touchState ttl sess chatID t₁).1.lastActivity = t₁ ∧
    (touchState ttl (touchState ttl sess chatID t₁).2 chatID t₂).1.lastActivity = t₂ ∧
    (t₂ - t₁ > ttl →
      (touchState ttl (touchState ttl sess chatID t₁).2 chatID t₂).1.topic = TopicBasket) ∧
    (t₂ - t₁ ≤ ttl →
      (touchState ttl (touchState ttl sess chatID t₁).2 chatID t₂).1.topic
        = (touchState ttl sess chatID t₁).1.topic) := by
  have hmem : alookup chatID (touchState ttl sess chatID t₁).2
      = some (touchState ttl sess chatID t₁).1 := by
    rw [touchState_snd]
    exact alookup_upsert_self _ _ _
  have htop := touchState_topic_of_mem ttl (touchState ttl sess chatID t₁).2 chatID t₂ _ hmem
  refine ⟨touchState_lastActivity .., touchState_lastActivity .., ?_, ?_⟩
  · intro hgt
    rw [htop, touchState_lastActivity, if_pos hgt]
  · intro hle
    rw [htop, touchState_lastActivity, if_neg (not_lt.mpr hle)]

/-- C3 witness: TTL 10, topic set to tasks then touched at t=5; a second
touch at t=20 (elapsed 15 > 10) lands in the inbox. -/
theorem touchState_ttl_semantics_witness :
    (20 : Int) - 5 > 10 ∧
    (touchState 10 (touchState 10 (setTopic [] 1 TopicTasks 5) 1 5).2 1 20).1.topic
      = TopicBasket :=
  ⟨by decide, (touchState_ttl_semantics 10 (setTopic [] 1 TopicTasks 5) 1 5 20).2.2.1 (by decide)⟩

/-- C3 counterexample: with TTL 10 and two touches exactly 10 apart
(elapsed ≥ TTL), the topic stays `tasks`: the source resets only on
*strictly* greater than TTL, so the claim's "≥ TTL" boundary fails. -/
theorem touchState_ttl_boundary_counterexample :
    (10 : Int) - 0 ≥ 10 ∧
    (touchState 10 (touchState 10 (setTopic [] 1 TopicTasks 0) 1 0).2 1 10).1.topic
      = TopicTasks ∧
    TopicTasks ≠ TopicBasket := by
  refine ⟨by decide, by decide, by decide⟩

/-- C4 (amended): `getState` performs no TTL logic — it returns an
existing session and the registry entirely unchanged (creating
⟨inbox, now⟩ only for an unknown chat), and the `/list` read path, which
goes through `getState`, therefore leaves the registry (and in particular
`lastActivity`) untouched for an existing session. -/
theorem getState_read_semantics (sess : SessMap) (chatID now : Int) :
    (∀ st, alookup chatID sess = some st → getState sess chatID now = (st, sess)) ∧
    (alookup chatID sess = none →
      getState sess chatID now
        = (⟨TopicBasket, now⟩, upsert chatID ⟨TopicBasket, now⟩ sess)) ∧
    (∀ env ttl store nowStr st, alookup chatID sess = some st →
      (handleMessage env ttl sess store chatID "/list" now nowStr).sessions = sess) := by
  refine ⟨?_, ?_, ?_⟩
  · intro st h
    unfold getState
    rw [h]
  · intro h
    unfold getState
    rw [h]
  · intro env ttl store nowStr st h
    have hsess : (getState sess chatID now).2 = sess := by
      unfold getState
      rw [h]
    have hcmd : isCommandText "/list" = true := by decide
    have hc : commandOf "/list" = "list" := by decide
    unfold handleMessage
    rw [hcmd]
    simp only [hc, if_true]
    by_cases hr : (getState sess chatID now).1.topic = TopicReminders <;>
      simp [hr, hsess]

/-- C4 witness for the amended claim: a stale session (tasks, last
activity 5) read at t=99 comes back unchanged. -/
theorem getState_read_semantics_witness :
    alookup 1 [((1 : Int), (⟨TopicTasks, 5⟩ : ChatState))] = some ⟨TopicTasks, 5⟩ ∧
    getState [(1, ⟨TopicTasks, 5⟩)] 1 99 = (⟨TopicTasks, 5⟩, [(1, ⟨TopicTasks, 5⟩)]) :=
  ⟨by decide, (getState_read_semantics [(1, ⟨TopicTasks, 5⟩)] 1 99).1 _ (by decide)⟩

/-- C4 counterexample: a session inactive for 1000 units with TTL 10 is
read by `getState` as still `tasks`, not the inbox, and `lastActivity` is
not refreshed — the read-time reset the claim requires does not exist. -/
theorem getState_no_ttl_counterexample :
    (1000 : Int) - 0 > 10 ∧
    (getState [(1, ⟨TopicTasks, 0⟩)] 1 1000).1.topic = TopicTasks ∧
    TopicTasks ≠ TopicBasket ∧
    (getState [(1, ⟨TopicTasks, 0⟩)] 1 1000).2 = [(1, ⟨TopicTasks, 0⟩)] := by
  refine ⟨by decide, by decide, by decide, by decide⟩

/-! ## The closed topic set (claim C10) -/

def validTopic (t : String) : Prop :=
  t = TopicBasket ∨ t = TopicTasks ∨ t = TopicReminders ∨ t = TopicShopping

instance (t : String) : Decidable (validTopic t) := by
  unfold validTopic
  infer_instance

def SessValid (m : SessMap) : Prop := ∀ p ∈ m, validTopic p.2.topic

instance (m : SessMap) : Decidable (SessValid m) := by
  unfold SessValid
  exact List.decidableBAll _ m

theorem isTopicButtonText_valid {t tp : String}
    (h : isTopicButtonText t = some tp) : validTopic tp := by
  unfold isTopicButtonText at h
  dsimp only at h
  split_ifs at h <;> simp_all [validTopic, TopicTasks, TopicReminders, TopicShopping, TopicBasket]

theorem SessValid_upsert {m : SessMap} {chatID : Int} {st : ChatState}
    (hm : SessValid m) (hv : validTopic st.topic) :
    SessValid (upsert chatID st m) := by
  intro p hp
  rcases mem_upsert hp with h | h
  · rw [h]
    exact hv
  · exact hm p h

theorem SessValid_getState {m : SessMap} {chatID now : Int} (hm : SessValid m) :
    SessValid (getState m chatID now).2 := by
  unfold getState
  cases h : alookup chatID m with
  | some st => exact hm
  | none => exact SessValid_upsert hm (Or.inl rfl)

theorem SessValid_touchState {m : SessMap} {ttl chatID now : Int} (hm : SessValid m) :
    SessValid (touchState ttl m chatID now).2 := by
  unfold touchState
  cases h : alookup chatID m with
  | none => exact SessValid_upsert hm (Or.inl rfl)
  | some st =>
    dsimp only
    apply SessValid_upsert hm
    by_cases hc : now - st.lastActivity > ttl
    · simp only [if_pos hc]
      exact Or.inl rfl
    · simp only [if_neg hc]
      exact hm (chatID, st) (alookup_mem h)

theorem SessValid_resetToMenu {m : SessMap} {chatID now : Int} (hm : SessValid m) :
    SessValid (resetToMenu m chatID now) :=
  SessValid_upsert hm (Or.inl rfl)

theorem SessValid_setTopic {m : SessMap} {chatID now : Int} {tp t : String}
    (hm : SessValid m) (h : isTopicButtonText t = some tp) :
    SessValid (setTopic m chatID tp now) :=
  SessValid_upsert hm (isTopicButtonText_valid h)

/-- C10: every session-registry operation as invoked by the dispatch path
keeps each session's topic inside {basket, tasks, reminders, shopping}:
`handleMessage` (for an arbitrary inbound text) preserves the invariant,
`getState`/`touchState`/`resetToMenu` preserve it, and `setTopic` is only
fed values of the topic-button recognizer, which produces only the four
topics. -/
theorem session_topic_closed_set (env : Env) (ttl : Int) (sess : SessMap)
    (store : Store) (chatID : Int) (text : String) (now : Int) (nowStr : String)
    (t₂ tp : String) (hs : SessValid sess) :
    SessValid (handleMessage env ttl sess store chatID text now nowStr).sessions ∧
    SessValid (getState sess chatID now).2 ∧
    SessValid (touchState ttl sess chatID now).2 ∧
    SessValid (resetToMenu sess chatID now) ∧
    (isTopicButtonText t₂ = some tp → validTopic tp ∧ SessValid (setTopic sess chatID tp now)) := by
  refine ⟨?_, SessValid_getState hs, SessValid_touchState hs, SessValid_resetToMenu hs,
    fun h => ⟨isTopicButtonText_valid h, SessValid_setTopic hs h⟩⟩
  unfold handleMessage
  split
  · split
    · exact SessValid_resetToMenu hs
    · split
      · split
        · exact SessValid_getState hs
        · exact SessValid_getState hs
      · exact hs
  · split
    · exact hs
    · split
      · split
        · exact SessValid_resetToMenu hs
        · split
          · rename_i topic heq _ _
            exact SessValid_setTopic hs heq
          · rename_i topic heq _ _
            exact SessValid_setTopic hs heq
      · split
        · exact SessValid_touchState hs
        · exact SessValid_touchState hs

/-- C10 witness: the invariant holds for and is preserved from a concrete
valid registry by a concrete dispatch step. -/
theorem session_topic_closed_set_witness :
    SessValid [((1 : Int), (⟨TopicTasks, 0⟩ : ChatState))] ∧
    SessValid (handleMessage ⟨"7"⟩ 10 [(1, ⟨TopicTasks, 0⟩)] ⟨[], [], 1⟩ 1 "hi" 3 "t").sessions :=
  ⟨by decide,
   (session_topic_closed_set ⟨"7"⟩ 10 [(1, ⟨TopicTasks, 0⟩)] ⟨[], [], 1⟩ 1 "hi" 3 "t"
      "menu" TopicBasket (by decide)).1⟩

/-! ## Store lemmas -/

theorem filter_idem {α : Type} (p : α → Bool) (l : List α) :
    (l.filter p).filter p = l.filter p := by
  induction l with
  | nil => rfl
  | cons a l ih =>
    by_cases h : p a = true <;> simp [List.filter_cons, h, ih]

theorem ensureChatID_idem (env : Env) (c : Int) (s : Store) :
    ensureChatID env c (ensureChatID env c s) = ensureChatID env c s := by
  unfold ensureChatID
  split
  · rfl
  · simp [Store.SetKV, upsert_upsert_same]

theorem ensureChatID_items (env : Env) (c : Int) (s : Store) :
    (ensureChatID env c s).items = s.items := by
  unfold ensureChatID
  split <;> rfl

theorem ensureChatID_nextId (env : Env) (c : Int) (s : Store) :
    (ensureChatID env c s).nextId = s.nextId := by
  unfold ensureChatID
  split <;> rfl

theorem ensureChatID_noop (env : Env) (c : Int) (s : Store)
    (h : goTrim env.chatID ≠ "" ∨ s.GetKV "chat_id" = some (toString c)) :
    ensureChatID env c s = s := by
  unfold ensureChatID
  rcases h with h | h
  · rw [if_pos h]
  · split
    · rfl
    · simp [Store.SetKV, upsert_of_alookup_eq h]

/-- C8: with no resolvable target chat, all three scheduler trigger
actions send nothing and leave the store untouched. -/
theorem no_target_chat_actions_noop (env : Env) (cal : Except String String)
    (s : Store) (h : targetChatID env s = none) :
    Scheduler.sendMorningDigest env cal s = [] ∧
    Scheduler.sendReminders env s = [] ∧
    Scheduler.wipeReminders env s = (s, []) := by
  unfold Scheduler.sendMorningDigest Scheduler.sendReminders Scheduler.wipeReminders
  rw [h]
  exact ⟨rfl, rfl, rfl⟩

/-- C8 witness: empty `CHAT_ID` and an empty `kv` table resolve no target
chat, so the digest, broadcast, and wipe are all no-ops. -/
theorem no_target_chat_actions_noop_witness :
    targetChatID ⟨""⟩ ⟨[], [], 1⟩ = none ∧
    Scheduler.sendMorningDigest ⟨""⟩ (.ok "agenda") ⟨[], [], 1⟩ = [] ∧
    Scheduler.sendReminders ⟨""⟩ ⟨[], [], 1⟩ = [] ∧
    Scheduler.wipeReminders ⟨""⟩ ⟨[], [], 1⟩ = (⟨[], [], 1⟩, []) := by
  refine ⟨by decide, ?_⟩
  exact no_target_chat_actions_noop ⟨""⟩ (.ok "agenda") ⟨[], [], 1⟩ (by decide)

/-- C5: when the trigger's target chat resolves, the reminder broadcast
emits exactly one message per active reminder item (none when there are
none), and the i-th message's inline button carries `done:<id>` for the
i-th item's identifier. -/
theorem reminder_broadcast_one_msg_per_item (env : Env) (s : Store) (c : Int)
    (h : targetChatID env s = some c) :
    (Scheduler.sendReminders env s).length = (s.ListActive c TopicReminders).length ∧
    (s.ListActive c TopicReminders = [] → Scheduler.sendReminders env s = []) ∧
    ∀ i, ∀ hm : i < (Scheduler.sendReminders env s).length,
      ∀ hi : i < (s.ListActive c TopicReminders).length,
      ((Scheduler.sendReminders env s).get ⟨i, hm⟩).button
        = some ("done:" ++ toString (((s.ListActive c TopicReminders).get ⟨i, hi⟩).id)) := by
  unfold Scheduler.sendReminders
  rw [h]
  dsimp only
  by_cases he : s.ListActive c TopicReminders = []
  · simp [he]
  · rw [if_neg he]
    refine ⟨List.length_map _ _, fun h' => absurd h' he, ?_⟩
    intro i hm hi
    rw [List.get_eq_getElem, List.get_eq_getElem, List.getElem_map]
    simp [singleReminderKeyboard]

/-- C5 witness: one active reminder for chat 7 yields one message with
button `done:1`. -/
theorem reminder_broadcast_one_msg_per_item_witness :
    targetChatID ⟨"7"⟩ ⟨[⟨1, 7, TopicReminders, "call", "t", StatusActive⟩], [], 2⟩ = some 7 ∧
    (Scheduler.sendReminders ⟨"7"⟩
        ⟨[⟨1, 7, TopicReminders, "call", "t", StatusActive⟩], [], 2⟩).length
      = ((⟨[⟨1, 7, TopicReminders, "call", "t", StatusActive⟩], [], 2⟩ : Store).ListActive 7
          TopicReminders).length :=
  ⟨by decide,
   (reminder_broadcast_one_msg_per_item ⟨"7"⟩
      ⟨[⟨1, 7, TopicReminders, "call", "t", StatusActive⟩], [], 2⟩ 7 (by decide)).1⟩

/-- C6: when the nightly wipe's target chat resolves, every reminder row
of that chat is removed (so its active-reminder list becomes empty), a
single confirmation message is emitted, and every other row — other
topics of that chat and all rows of other chats — survives with identical
fields; nothing is added and the `kv` table is untouched. -/
theorem nightly_wipe_scoped_frame (env : Env) (s : Store) (c : Int)
    (h : targetChatID env s = some c) :
    (∀ it ∈ s.items, it.chatID = c → it.topic = TopicReminders →
        it ∉ (Scheduler.wipeReminders env s).1.items) ∧
    (Scheduler.wipeReminders env s).1.ListActive c TopicReminders = [] ∧
    (Scheduler.wipeReminders env s).2 = [mkMsg c "НАПОМИНАНИЯ ОЧИЩЕНЫ (ночной вайп)."] ∧
    (∀ it ∈ s.items, it.chatID ≠ c ∨ it.topic ≠ TopicReminders →
        it ∈ (Scheduler.wipeReminders env s).1.items) ∧
    (∀ it ∈ (Scheduler.wipeReminders env s).1.items, it ∈ s.items) ∧
    (Scheduler.wipeReminders env s).1.kv = s.kv ∧
    (Scheduler.wipeReminders env s).1.nextId = s.nextId := by
  unfold Scheduler.wipeReminders
  rw [h]
  dsimp only
  refine ⟨?_, ?_, rfl, ?_, ?_, rfl, rfl⟩
  · intro it hmem hc ht hcontra
    rw [Store.DeleteAllReminders] at hcontra
    simp only [List.mem_filter, decide_eq_true_eq] at hcontra
    exact hcontra.2 ⟨hc, ht⟩
  · rw [Store.ListActive, List.filter_eq_nil_iff]
    intro it hmem
    rw [Store.DeleteAllReminders] at hmem
    simp only [List.mem_filter, decide_eq_true_eq] at hmem ⊢
    intro hcontra
    rcases hcontra.2.2 with h' | h'
    · exact absurd h' (by decide)
    · exact hmem.2 ⟨hcontra.1, h'⟩
  · intro it hmem hother
    rw [Store.DeleteAllReminders]
    simp only [List.mem_filter, decide_eq_true_eq]
    refine ⟨hmem, ?_⟩
    intro hcontra
    rcases hother with h' | h'
    · exact h' hcontra.1
    · exact h' hcontra.2
  · intro it hmem
    rw [Store.DeleteAllReminders] at hmem
    exact (List.mem_filter.mp hmem).1

/-- C6 witness: chat 7 has a reminder and a task, chat 8 has a reminder;
the wipe removes only chat 7's reminder. -/
theorem nightly_wipe_scoped_frame_witness :
    targetChatID ⟨"7"⟩
        ⟨[⟨1, 7, TopicReminders, "a", "t", StatusActive⟩,
          ⟨2, 7, TopicTasks, "b", "t", StatusActive⟩,
          ⟨3, 8, TopicReminders, "c", "t", StatusActive⟩], [], 4⟩ = some 7 ∧
    (Scheduler.wipeReminders ⟨"7"⟩
        ⟨[⟨1, 7, TopicReminders, "a", "t", StatusActive⟩,
          ⟨2, 7, TopicTasks, "b", "t", StatusActive⟩,
          ⟨3, 8, TopicReminders, "c", "t", StatusActive⟩], [], 4⟩).1.ListActive 7
        TopicReminders = [] :=
  ⟨by decide,
   (nightly_wipe_scoped_frame ⟨"7"⟩
      ⟨[⟨1, 7, TopicReminders, "a", "t", StatusActive⟩,
        ⟨2, 7, TopicTasks, "b", "t", StatusActive⟩,
        ⟨3, 8, TopicReminders, "c", "t", StatusActive⟩], [], 4⟩ 7 (by decide)).2.1⟩

/-- C7: a `done:<id>` completion activation whose identifier resolves to
no active item of the chat leaves the (all-active, reachable) store
exactly as it was — the model is total, so no error is possible — and
activating any completion affordance twice has the same store effect as
activating it once.  (The hypothesis on `env`/`kv` says the chat id is
already known, which every reachable dispatch state satisfies: the same
handler unconditionally persists it first.) -/
theorem completion_activation_idempotent_noop (env : Env) (s : Store)
    (c id : Int) (data : String)
    (htake : (goTrim data).data.take 5 = "done:".data)
    (hparse : parseIntGo ⟨(goTrim data).data.drop 5⟩ = some id)
    (hact : ∀ it ∈ s.items, it.status = StatusActive)
    (hno : ∀ it ∈ s.items, ¬(it.chatID = c ∧ it.id = id ∧ it.status = StatusActive))
    (hens : goTrim env.chatID ≠ "" ∨ s.GetKV "chat_id" = some (toString c)) :
    handleCallback env s c data = s ∧
    (∀ d s', handleCallback env (handleCallback env s' c d) c d
      = handleCallback env s' c d) := by
  constructor
  · unfold handleCallback
    rw [ensureChatID_noop env c s hens]
    rw [if_pos htake, hparse]
    dsimp only
    unfold Store.DeleteItem
    have hfil : s.items.filter (fun it => decide ¬(it.chatID = c ∧ it.id = id)) = s.items := by
      rw [List.filter_eq_self]
      intro it hmem
      simp only [decide_eq_true_eq]
      intro hcontra
      exact hno it hmem ⟨hcontra.1, hcontra.2, hact it hmem⟩
    rw [hfil]
  · intro d s'
    unfold handleCallback
    by_cases hd : (goTrim d).data.take 5 = "done:".data
    · rw [if_pos hd, if_pos hd]
      cases hp : parseIntGo ⟨(goTrim d).data.drop 5⟩ with
      | some i =>
        dsimp only
        by_cases henv : goTrim env.chatID = ""
        · simp [ensureChatID, henv, Store.SetKV, Store.DeleteItem,
            upsert_upsert_same, filter_idem]
        · simp [ensureChatID, henv, Store.DeleteItem, filter_idem]
      | none =>
        dsimp only
        exact ensureChatID_idem env c s'
    · rw [if_neg hd, if_neg hd]
      exact ensureChatID_idem env c s'

/-- C7 witness: store with one active item (id 1) for chat 7; activating
`done:99` (nonexistent) is a no-op; idempotence instantiated at the real
affordance `done:1`. -/
theorem completion_activation_idempotent_noop_witness :
    (goTrim "done:99").data.take 5 = "done:".data ∧
    parseIntGo ⟨(goTrim "done:99").data.drop 5⟩ = some 99 ∧
    handleCallback ⟨"7"⟩ ⟨[⟨1, 7, TopicTasks, "a", "t", StatusActive⟩], [], 2⟩ 7 "done:99"
      = ⟨[⟨1, 7, TopicTasks, "a", "t", StatusActive⟩], [], 2⟩ :=
  ⟨by decide, by decide,
   (completion_activation_idempotent_noop ⟨"7"⟩
      ⟨[⟨1, 7, TopicTasks, "a", "t", StatusActive⟩], [], 2⟩ 7 99 "done:99"
      (by decide) (by decide) (by decide) (by decide) (by decide)).1⟩

/-- C9 counterexample: the free-text capture path stores
`strings.TrimSpace` of the inbound text, so a message with surrounding
whitespace is *not* stored unchanged. -/
theorem free_text_capture_verbatim_counterexample :
    ((handleMessage ⟨"1"⟩ 600 [] ⟨[], [], 1⟩ 1 " привет " 0 "T").store.items.map Item.text)
      = ["привет"] ∧
    (" привет " : String) ≠ "привет" := by
  exact ⟨by decide, by decide⟩

/-- C9 (amended): a dispatched free-text message (not a command, not a
topic button, non-whitespace) appends exactly one new active row holding
the *whitespace-trimmed* text (so texts without surrounding whitespace are
stored verbatim) under the touch-resolved topic; `ListActive` for that
chat and topic afterwards returns the previous active items followed by
the new one, and — for stores with the `AUTOINCREMENT` invariant — in
strictly ascending id (= insertion) order. -/
theorem free_text_capture_roundtrip_trimmed (env : Env) (ttl : Int)
    (sess : SessMap) (store : Store) (chatID : Int) (text : String)
    (now : Int) (nowStr : String)
    (hcmd : isCommandText text = false) (hne : text ≠ "")
    (hbtn : isTopicButtonText text = none) (htrim : goTrim text ≠ "") :
    (handleMessage env ttl sess store chatID text now nowStr).store.items
      = store.items ++
        [⟨store.nextId, chatID, (touchState ttl sess chatID now).1.topic,
          goTrim text, nowStr, StatusActive⟩] ∧
    (handleMessage env ttl sess store chatID text now nowStr).store.ListActive chatID
        (touchState ttl sess chatID now).1.topic
      = store.ListActive chatID (touchState ttl sess chatID now).1.topic ++
        [⟨store.nextId, chatID, (touchState ttl sess chatID now).1.topic,
          goTrim text, nowStr, StatusActive⟩] ∧
    (Store.Inv store →
      List.Pairwise (fun a b => a.id < b.id)
        ((handleMessage env ttl sess store chatID text now nowStr).store.ListActive chatID
          (touchState ttl sess chatID now).1.topic)) := by
  have hred : (handleMessage env ttl sess store chatID text now nowStr).store
      = ((ensureChatID env chatID store).AddItem chatID
          (touchState ttl sess chatID now).1.topic (goTrim text) nowStr).2 := by
    unfold handleMessage
    rw [hcmd]
    simp only [Bool.false_eq_true, if_false]
    rw [if_neg hne, hbtn]
    dsimp only
    rw [if_neg htrim]
  have hitems : (handleMessage env ttl sess store chatID text now nowStr).store.items
      = store.items ++
        [⟨store.nextId, chatID, (touchState ttl sess chatID now).1.topic,
          goTrim text, nowStr, StatusActive⟩] := by
    rw [hred]
    simp [Store.AddItem, ensureChatID_items, ensureChatID_nextId]
  have hlist : (handleMessage env ttl sess store chatID text now nowStr).store.ListActive chatID
        (touchState ttl sess chatID now).1.topic
      = store.ListActive chatID (touchState ttl sess chatID now).1.topic ++
        [⟨store.nextId, chatID, (touchState ttl sess chatID now).1.topic,
          goTrim text, nowStr, StatusActive⟩] := by
    unfold Store.ListActive
    rw [hitems, List.filter_append]
    congr 1
    simp [StatusActive]
  refine ⟨hitems, hlist, ?_⟩
  intro hinv
  rw [hlist]
  have hpair : List.Pairwise (fun (a b : Item) => a.id < b.id)
      (store.items ++
        [⟨store.nextId, chatID, (touchState ttl sess chatID now).1.topic,
          goTrim text, nowStr, StatusActive⟩]) := by
    rw [List.pairwise_append]
    refine ⟨hinv.1, List.pairwise_singleton _ _, ?_⟩
    intro a ha b hb
    simp only [List.mem_singleton] at hb
    rw [hb]
    exact hinv.2 a ha
  have hfil := hpair.filter
    (p := fun it : Item =>
      decide (it.chatID = chatID ∧ it.status = StatusActive ∧
        ((touchState ttl sess chatID now).1.topic = "" ∨
          it.topic = (touchState ttl sess chatID now).1.topic)))
  have hsing : List.filter
      (fun it : Item =>
        decide (it.chatID = chatID ∧ it.status = StatusActive ∧
          ((touchState ttl sess chatID now).1.topic = "" ∨
            it.topic = (touchState ttl sess chatID now).1.topic)))
      [⟨store.nextId, chatID, (touchState ttl sess chatID now).1.topic,
        goTrim text, nowStr, StatusActive⟩]
      = [⟨store.nextId, chatID, (touchState ttl sess chatID now).1.topic,
          goTrim text, nowStr, StatusActive⟩] := by
    simp [StatusActive]
  rw [List.filter_append, hsing] at hfil
  unfold Store.ListActive
  exact hfil

/-- C9 witness: capture of " привет " into a store already holding one
item appends the trimmed text as id 2. -/
theorem free_text_capture_roundtrip_trimmed_witness :
    isCommandText " привет " = false ∧ (" привет " : String) ≠ "" ∧
    isTopicButtonText " привет " = none ∧ goTrim " привет " ≠ "" ∧
    (handleMessage ⟨"1"⟩ 600 [] ⟨[⟨1, 1, TopicBasket, "old", "t", StatusActive⟩], [], 2⟩
        1 " привет " 0 "T").store.items
      = [⟨1, 1, TopicBasket, "old", "t", StatusActive⟩] ++
        [⟨2, 1, (touchState 600 [] 1 0).1.topic, goTrim " привет ", "T", StatusActive⟩] :=
  ⟨by decide, by decide, by decide, by decide,
   (free_text_capture_roundtrip_trimmed ⟨"1"⟩ 600 []
      ⟨[⟨1, 1, TopicBasket, "old", "t", StatusActive⟩], [], 2⟩ 1 " привет " 0 "T"
      (by decide) (by decide) (by decide) (by decide)).1⟩


/-! ## Scheduler lemmas

`foldTick_*` speak about the fold of `tickStep` over an arbitrary trigger
list; `tick_*` restate them for a full loop iteration; `runTicks_*` lift
them over a sequence of iterations sharing a calendar date. -/

theorem foldTick_blocked (env : Env) (cal : Except String String)
    (now : SimTime) (k : String) :
    ∀ (L : List Trigger) (st : TickState),
      alookup k st.lastFired = some now.date →
      alookup k (L.foldl (tickStep env cal now) st).lastFired = some now.date ∧
      (L.foldl (tickStep env cal now) st).fired.count k = st.fired.count k := by
  intro L
  induction L with
  | nil => exact fun st h => ⟨h, rfl⟩
  | cons tr L ih =>
    intro st h
    rw [List.foldl_cons]
    rcases eq_or_ne tr.key k with hk | hk
    · have hg : ¬(now.hhmm = tr.time ∧ alookup tr.key st.lastFired ≠ some now.date) := by
        rw [hk]
        exact fun hc => hc.2 h
      simp only [tickStep, if_neg hg]
      exact ih st h
    · by_cases hg : now.hhmm = tr.time ∧ alookup tr.key st.lastFired ≠ some now.date
      · simp only [tickStep, if_pos hg]
        have h' : alookup k (upsert tr.key now.date st.lastFired) = some now.date := by
          rw [alookup_upsert_ne _ _ hk]
          exact h
        obtain ⟨ha, hb⟩ := ih (⟨upsert tr.key now.date st.lastFired,
          (actionOf tr.kind env cal st.store).1,
          st.msgs ++ (actionOf tr.kind env cal st.store).2,
          st.fired ++ [tr.key]⟩ : TickState) h'
        refine ⟨ha, ?_⟩
        rw [hb]
        simp [List.count_append, List.count_cons, Ne.symm hk]
      · simp only [tickStep, if_neg hg]
        exact ih st h

theorem foldTick_free (env : Env) (cal : Except String String)
    (now : SimTime) (k : String) :
    ∀ (L : List Trigger) (st : TickState),
      alookup k st.lastFired ≠ some now.date →
      if L.any (fun tr => tr.key == k && tr.time == now.hhmm) then
        alookup k (L.foldl (tickStep env cal now) st).lastFired = some now.date ∧
        (L.foldl (tickStep env cal now) st).fired.count k = st.fired.count k + 1
      else
        alookup k (L.foldl (tickStep env cal now) st).lastFired = alookup k st.lastFired ∧
        (L.foldl (tickStep env cal now) st).fired.count k = st.fired.count k := by
  intro L
  induction L with
  | nil =>
    intro st h
    simp
  | cons tr L ih =>
    intro st h
    rw [List.foldl_cons, List.any_cons]
    by_cases hk : tr.key = k
    · by_cases ht : tr.time = now.hhmm
      · have hg : now.hhmm = tr.time ∧ alookup tr.key st.lastFired ≠ some now.date :=
          ⟨ht.symm, by rw [hk]; exact h⟩
        have hcond : (tr.key == k && tr.time == now.hhmm) = true := by
          simp [hk, ht]
        rw [hcond, Bool.true_or, if_pos rfl]
        simp only [tickStep, if_pos hg]
        have h' : alookup k (upsert tr.key now.date st.lastFired) = some now.date := by
          rw [hk]
          exact alookup_upsert_self _ _ _
        obtain ⟨ha, hb⟩ := foldTick_blocked env cal now k L
          (⟨upsert tr.key now.date st.lastFired,
            (actionOf tr.kind env cal st.store).1,
            st.msgs ++ (actionOf tr.kind env cal st.store).2,
            st.fired ++ [tr.key]⟩ : TickState) h'
        refine ⟨ha, ?_⟩
        rw [hb]
        simp [List.count_append, List.count_cons, hk]
      · have hg : ¬(now.hhmm = tr.time ∧ alookup tr.key st.lastFired ≠ some now.date) := by
          intro hc
          exact ht hc.1.symm
        have hcond : (tr.key == k && tr.time == now.hhmm) = false := by
          simp [ht]
        rw [hcond, Bool.false_or]
        simp only [tickStep, if_neg hg]
        exact ih st h
    · have hcond : (tr.key == k && tr.time == now.hhmm) = false := by
        simp [hk]
      rw [hcond, Bool.false_or]
      by_cases hg : now.hhmm = tr.time ∧ alookup tr.key st.lastFired ≠ some now.date
      · simp only [tickStep, if_pos hg]
        have h' : alookup k (upsert tr.key now.date st.lastFired) = alookup k st.lastFired :=
          alookup_upsert_ne _ _ hk
        have h'' : alookup k (upsert tr.key now.date st.lastFired) ≠ some now.date := by
          rw [h']
          exact h
        have hres := ih (⟨upsert tr.key now.date st.lastFired,
          (actionOf tr.kind env cal st.store).1,
          st.msgs ++ (actionOf tr.kind env cal st.store).2,
          st.fired ++ [tr.key]⟩ : TickState) h''
        cases hany : L.any (fun tr => tr.key == k && tr.time == now.hhmm) with
        | true =>
          rw [hany, if_pos rfl] at hres
          rw [if_pos rfl]
          refine ⟨hres.1, ?_⟩
          rw [hres.2]
          simp [List.count_append, List.count_cons, Ne.symm hk]
        | false =>
          rw [hany] at hres
          simp only [Bool.false_eq_true, if_false] at hres ⊢
          refine ⟨by rw [hres.1]; exact h', ?_⟩
          rw [hres.2]
          simp [List.count_append, List.count_cons, Ne.symm hk]
      · simp only [tickStep, if_neg hg]
        exact ih st h

theorem foldTick_noop (env : Env) (cal : Except String String) (now : SimTime) :
    ∀ (L : List Trigger) (st : TickState),
      targetChatID env st.store = none →
      (L.foldl (tickStep env cal now) st).store = st.store ∧
      (L.foldl (tickStep env cal now) st).msgs = st.msgs := by
  intro L
  induction L with
  | nil => exact fun st _ => ⟨rfl, rfl⟩
  | cons tr L ih =>
    intro st h
    rw [List.foldl_cons]
    by_cases hg : now.hhmm = tr.time ∧ alookup tr.key st.lastFired ≠ some now.date
    · simp only [tickStep, if_pos hg]
      have hact : actionOf tr.kind env cal st.store = (st.store, []) := by
        cases tr.kind <;>
          simp [actionOf, Scheduler.sendMorningDigest, Scheduler.sendReminders,
            Scheduler.wipeReminders, h]
      rw [hact]
      simp only [List.append_nil]
      exact ih _ h
    · simp only [tickStep, if_neg hg]
      exact ih st h

theorem tick_blocked (cfg : Scheduler) (env : Env) (cal : Except String String)
    (now : SimTime) (k : String) (st : TickState)
    (h : alookup k st.lastFired = some now.date) :
    alookup k (Scheduler.tick cfg env cal now st).lastFired = some now.date ∧
    (Scheduler.tick cfg env cal now st).fired.count k = st.fired.count k := by
  unfold Scheduler.tick
  exact foldTick_blocked env cal now k (triggers cfg) st h

theorem tick_free (cfg : Scheduler) (env : Env) (cal : Except String String)
    (now : SimTime) (k : String) (st : TickState)
    (h : alookup k st.lastFired ≠ some now.date) :
    if dueAt cfg k now.hhmm then
      alookup k (Scheduler.tick cfg env cal now st).lastFired = some now.date ∧
      (Scheduler.tick cfg env cal now st).fired.count k = st.fired.count k + 1
    else
      alookup k (Scheduler.tick cfg env cal now st).lastFired = alookup k st.lastFired ∧
      (Scheduler.tick cfg env cal now st).fired.count k = st.fired.count k := by
  unfold Scheduler.tick dueAt
  exact foldTick_free env cal now k (triggers cfg) st h

theorem tick_noop (cfg : Scheduler) (env : Env) (cal : Except String String)
    (now : SimTime) (st : TickState) (h : targetChatID env st.store = none) :
    (Scheduler.tick cfg env cal now st).store = st.store ∧
    (Scheduler.tick cfg env cal now st).msgs = st.msgs := by
  unfold Scheduler.tick
  exact foldTick_noop env cal now (triggers cfg) st h

theorem runTicks_cons (cfg : Scheduler) (env : Env) (cal : Except String String)
    (st : TickState) (t : SimTime) (ts : List SimTime) :
    Scheduler.runTicks cfg env cal st (t :: ts)
      = Scheduler.runTicks cfg env cal (Scheduler.tick cfg env cal t st) ts := rfl

theorem runTicks_blocked (cfg : Scheduler) (env : Env) (cal : Except String String)
    (d : String) (k : String) :
    ∀ (ts : List SimTime) (st : TickState),
      (∀ t ∈ ts, t.date = d) →
      alookup k st.lastFired = some d →
      alookup k (Scheduler.runTicks cfg env cal st ts).lastFired = some d ∧
      (Scheduler.runTicks cfg env cal st ts).fired.count k = st.fired.count k := by
  intro ts
  induction ts with
  | nil => exact fun st _ h => ⟨h, rfl⟩
  | cons t ts ih =>
    intro st hd h
    have hdt : t.date = d := hd t (List.mem_cons_self _ _)
    have h' : alookup k st.lastFired = some t.date := by
      rw [hdt]
      exact h
    obtain ⟨h1, h2⟩ := tick_blocked cfg env cal t k st h'
    have h1' : alookup k (Scheduler.tick cfg env cal t st).lastFired = some d := by
      rw [← hdt]
      exact h1
    obtain ⟨h3, h4⟩ := ih (Scheduler.tick cfg env cal t st)
      (fun u hu => hd u (List.mem_cons_of_mem _ hu)) h1'
    rw [runTicks_cons]
    refine ⟨h3, ?_⟩
    rw [h4]
    exact h2

theorem runTicks_le (cfg : Scheduler) (env : Env) (cal : Except String String)
    (d : String) (k : String) :
    ∀ (ts : List SimTime) (st : TickState),
      (∀ t ∈ ts, t.date = d) →
      (alookup k (Scheduler.runTicks cfg env cal st ts).lastFired = alookup k st.lastFired ∨
        alookup k (Scheduler.runTicks cfg env cal st ts).lastFired = some d) ∧
      (Scheduler.runTicks cfg env cal st ts).fired.count k ≤ st.fired.count k + 1 := by
  intro ts
  induction ts with
  | nil => exact fun st _ => ⟨Or.inl rfl, Nat.le_succ _⟩
  | cons t ts ih =>
    intro st hd
    have hdt : t.date = d := hd t (List.mem_cons_self _ _)
    have hdr : ∀ u ∈ ts, u.date = d := fun u hu => hd u (List.mem_cons_of_mem _ hu)
    by_cases hl : alookup k st.lastFired = some d
    · obtain ⟨h1, h2⟩ := runTicks_blocked cfg env cal d k (t :: ts) st hd hl
      rw [h2]
      exact ⟨Or.inr h1, Nat.le_succ _⟩
    · have hl' : alookup k st.lastFired ≠ some t.date := by
        rw [hdt]
        exact hl
      have hfree := tick_free cfg env cal t k st hl'
      rw [runTicks_cons]
      cases hany : dueAt cfg k t.hhmm with
      | true =>
        rw [hany, if_pos rfl] at hfree
        have hsome : alookup k (Scheduler.tick cfg env cal t st).lastFired = some d := by
          rw [← hdt]
          exact hfree.1
        obtain ⟨h3, h4⟩ := runTicks_blocked cfg env cal d k ts
          (Scheduler.tick cfg env cal t st) hdr hsome
        rw [h4, hfree.2]
        exact ⟨Or.inr h3, Nat.le_refl _⟩
      | false =>
        rw [hany] at hfree
        simp only [Bool.false_eq_true, if_false] at hfree
        obtain ⟨h3, h4⟩ := ih (Scheduler.tick cfg env cal t st) hdr
        constructor
        · rcases h3 with h3 | h3
          · exact Or.inl (by rw [h3, hfree.1])
          · exact Or.inr h3
        · calc (Scheduler.runTicks cfg env cal (Scheduler.tick cfg env cal t st) ts).fired.count k
              ≤ (Scheduler.tick cfg env cal t st).fired.count k + 1 := h4
          _ = st.fired.count k + 1 := by rw [hfree.2]

/-- C1: starting from the loop's fresh `lastFired` map, any number of
`tick`s whose wall-clock instants share calendar date `d` invoke a given
trigger key's action at most once; and a later tick on a different date
at the trigger's time-of-day invokes it exactly once more. -/
theorem scheduler_fires_at_most_once_per_date (cfg : Scheduler) (env : Env)
    (cal : Except String String) (s : Store) (ts : List SimTime) (d : String)
    (k : String) (t' : SimTime)
    (hd : ∀ t ∈ ts, t.date = d)
    (hdue : dueAt cfg k t'.hhmm = true)
    (hne : t'.date ≠ d) :
    (Scheduler.runTicks cfg env cal (initTick s) ts).fired.count k ≤ 1 ∧
    (Scheduler.tick cfg env cal t'
        (Scheduler.runTicks cfg env cal (initTick s) ts)).fired.count k
      = (Scheduler.runTicks cfg env cal (initTick s) ts).fired.count k + 1 := by
  obtain ⟨hor, hle⟩ := runTicks_le cfg env cal d k ts (initTick s) hd
  constructor
  · simpa [initTick] using hle
  · have hnot : alookup k
        (Scheduler.runTicks cfg env cal (initTick s) ts).lastFired ≠ some t'.date := by
      rcases hor with h | h
      · rw [h]
        simp [initTick, alookup]
      · rw [h]
        intro hc
        exact hne (Option.some.inj hc).symm
    have hfree := tick_free cfg env cal t' k _ hnot
    rw [hdue, if_pos rfl] at hfree
    exact hfree.2

/-- C1 witness: two polls at 08:00 on 2024-01-01 fire `reminders:08:00`
at most once; the 08:00 poll of 2024-01-02 fires it exactly once more. -/
theorem scheduler_fires_at_most_once_per_date_witness :
    (∀ t ∈ [(⟨"08:00", "2024-01-01"⟩ : SimTime), ⟨"08:00", "2024-01-01"⟩],
      t.date = "2024-01-01") ∧
    dueAt gtdScheduler "reminders:08:00" "08:00" = true ∧
    ("2024-01-02" : String) ≠ "2024-01-01" ∧
    ((Scheduler.runTicks gtdScheduler ⟨""⟩ (.ok "x") (initTick ⟨[], [], 1⟩)
        [⟨"08:00", "2024-01-01"⟩, ⟨"08:00", "2024-01-01"⟩]).fired.count "reminders:08:00" ≤ 1 ∧
      (Scheduler.tick gtdScheduler ⟨""⟩ (.ok "x") ⟨"08:00", "2024-01-02"⟩
          (Scheduler.runTicks gtdScheduler ⟨""⟩ (.ok "x") (initTick ⟨[], [], 1⟩)
            [⟨"08:00", "2024-01-01"⟩, ⟨"08:00", "2024-01-01"⟩])).fired.count "reminders:08:00"
        = (Scheduler.runTicks gtdScheduler ⟨""⟩ (.ok "x") (initTick ⟨[], [], 1⟩)
            [⟨"08:00", "2024-01-01"⟩, ⟨"08:00", "2024-01-01"⟩]).fired.count "reminders:08:00"
          + 1) :=
  ⟨by decide, by decide, by decide,
   scheduler_fires_at_most_once_per_date gtdScheduler ⟨""⟩ (.ok "x") ⟨[], [], 1⟩
     [⟨"08:00", "2024-01-01"⟩, ⟨"08:00", "2024-01-01"⟩] "2024-01-01" "reminders:08:00"
     ⟨"08:00", "2024-01-02"⟩ (by decide) (by decide) (by decide)⟩

/-- C2: a due trigger's firing record is committed independently of what
its action does — here the action degrades to a no-op (no target chat), so
the tick fires the key, stores today's date for it, sends nothing and
changes no store row, and any further tick on the same date does not fire
the key again (no same-day retry).  This is the observable rendering of
the source's commit-the-record-*before*-running-the-action order. -/
theorem scheduler_commits_firing_before_action (cfg : Scheduler) (env : Env)
    (cal : Except String String) (st : TickState) (t t₂ : SimTime) (k : String)
    (htc : targetChatID env st.store = none)
    (hdue : dueAt cfg k t.hhmm = true)
    (hnf : alookup k st.lastFired ≠ some t.date)
    (hd2 : t₂.date = t.date) :
    (Scheduler.tick cfg env cal t st).fired.count k = st.fired.count k + 1 ∧
    alookup k (Scheduler.tick cfg env cal t st).lastFired = some t.date ∧
    (Scheduler.tick cfg env cal t st).msgs = st.msgs ∧
    (Scheduler.tick cfg env cal t st).store = st.store ∧
    (Scheduler.tick cfg env cal t₂
        (Scheduler.tick cfg env cal t st)).fired.count k
      = (Scheduler.tick cfg env cal t st).fired.count k := by
  have hfree := tick_free cfg env cal t k st hnf
  rw [hdue, if_pos rfl] at hfree
  obtain ⟨ha, hb⟩ := hfree
  obtain ⟨hs, hm⟩ := tick_noop cfg env cal t st htc
  refine ⟨hb, ha, hm, hs, ?_⟩
  have ha2 : alookup k (Scheduler.tick cfg env cal t st).lastFired = some t₂.date := by
    rw [hd2]
    exact ha
  exact (tick_blocked cfg env cal t₂ k _ ha2).2

/-- C2 witness: the 03:00 wipe with no resolvable chat still commits its
firing record, emits nothing, and is not retried by a 10:00 poll of the
same date. -/
theorem scheduler_commits_firing_before_action_witness :
    targetChatID ⟨""⟩ (initTick (⟨[], [], 1⟩ : Store)).store = none ∧
    dueAt gtdScheduler "wipe:03:00" "03:00" = true ∧
    alookup "wipe:03:00" (initTick (⟨[], [], 1⟩ : Store)).lastFired
      ≠ some "2024-01-05" ∧
    (Scheduler.tick gtdScheduler ⟨""⟩ (.ok "x") ⟨"03:00", "2024-01-05"⟩
        (initTick ⟨[], [], 1⟩)).fired.count "wipe:03:00"
      = (initTick (⟨[], [], 1⟩ : Store)).fired.count "wipe:03:00" + 1 ∧
    (Scheduler.tick gtdScheduler ⟨""⟩ (.ok "x") ⟨"03:00", "2024-01-05"⟩
        (initTick ⟨[], [], 1⟩)).msgs = (initTick (⟨[], [], 1⟩ : Store)).msgs :=
  ⟨by decide, by decide, by decide,
   (scheduler_commits_firing_before_action gtdScheduler ⟨""⟩ (.ok "x")
      (initTick ⟨[], [], 1⟩) ⟨"03:00", "2024-01-05"⟩ ⟨"10:00", "2024-01-05"⟩
      "wipe:03:00" (by decide) (by decide) (by decide) (by decide)).1,
   (scheduler_commits_firing_before_action gtdScheduler ⟨""⟩ (.ok "x")
      (initTick ⟨[], [], 1⟩) ⟨"03:00", "2024-01-05"⟩ ⟨"10:00", "2024-01-05"⟩
      "wipe:03:00" (by decide) (by decide) (by decide) (by decide)).2.2.1⟩
